import Mathlib

/-!
Shallow embedding of the AppKit event-loop coordinator of
`src/platform_impl/apple/appkit/app_state.rs` (winit).

Modelling conventions:
* `Instant` is modelled as `Nat` (a point on a monotone clock); `WindowId` as `Nat`.
* Interior-mutability cells of `AppState` become plain fields of a Lean structure;
  every coordinator method becomes a function `AppState → ... → AppState × List Effect`
  returning the successor state together with the ordered list of observable effects
  (user-callback dispatches, `stop_app_immediately` signals, waker commands, run-loop
  nudges) the method performs, in program order.
* The reentrancy guard (`event_handler.in_use()`), the installed-handler query
  (`event_handler.ready()`) and the propagating-panic query (`panic_info.is_panicking()`)
  live outside `AppState` in the Rust code (`EventHandler`, `PanicInfo`); they enter the
  model as explicit boolean arguments to the functions that read them.
* A Rust function that can panic (`Option::unwrap`) is embedded returning
  `Option (AppState × List Effect)`, `none` meaning the panic.
* Purely native calls that touch no `AppState` field (activation policy, the window
  activation hack, menu initialization) are not modelled; they matter to no claim here.
-/

/-- ControlFlow from `crate::event_loop` as used by the coordinator:
`Poll`, `Wait`, `WaitUntil(instant)`. -/
inductive ControlFlow where
  | Poll : ControlFlow
  | Wait : ControlFlow
  | WaitUntil (t : Nat) : ControlFlow
  deriving Repr, DecidableEq

/-- StartCause from `crate::event` as produced by the coordinator. -/
inductive StartCause where
  | Init : StartCause
  | Poll : StartCause
  | WaitCancelled (start : Nat) (requested_resume : Option Nat) : StartCause
  | ResumeTimeReached (start : Nat) (requested_resume : Nat) : StartCause
  deriving Repr, DecidableEq

/-- Observable effects of a coordinator method, in program order. A `dispatchCb n`
is a dispatch of an anonymous user closure identified by `n` (used for
`maybe_queue_with_handler`); the named constructors are the specific
`ApplicationHandler` callbacks the coordinator invokes through `with_handler`. -/
inductive Effect where
  | newEvents (cause : StartCause) : Effect
  | canCreateSurfaces : Effect
  | windowEvent (id : Nat) : Effect
  | proxyWakeUp : Effect
  | aboutToWait : Effect
  | exiting : Effect
  | stopApp : Effect
  | wakerStart : Effect
  | wakerStartAt (deadline : Option Nat) : Effect
  | runLoopWakeup : Effect
  | dispatchCb (id : Nat) : Effect
  | queueClosure (id : Nat) : Effect
  deriving Repr, DecidableEq

/-- The mutable ivar state of `AppState` (app_state.rs lines 22-47), restricted to the
fields the coordinator reads or writes; `pending_redraw` keeps its `Vec` order. -/
structure AppState where
  proxy_wake_up : Bool
  stop_on_launch : Bool
  stop_before_wait : Bool
  stop_after_wait : Bool
  stop_on_redraw : Bool
  is_launched : Bool
  is_running : Bool
  exit : Bool
  control_flow : ControlFlow
  start_time : Option Nat
  wait_timeout : Option Nat
  pending_redraw : List Nat
  deriving Repr, DecidableEq

/-- Function `min_timeout` (app_state.rs lines 403-405): the minimum `Option<Instant>`
where `None` equates to an infinite timeout, written with the same `map_or` shape. -/
def min_timeout (a b : Option Nat) : Option Nat :=
  a.elim b (fun a_timeout => b.elim (some a_timeout) (fun b_timeout => some (min a_timeout b_timeout)))

/-- The `StartCause` match inside `ApplicationDelegate::wakeup` (lines 337-347),
with `now` standing for the `Instant::now()` read in the `WaitUntil` arm. -/
def wakeupCause (cf : ControlFlow) (now start : Nat) : StartCause :=
  match cf with
  | ControlFlow.Poll => StartCause.Poll
  | ControlFlow.Wait => StartCause.WaitCancelled start none
  | ControlFlow.WaitUntil requested_resume =>
      if now ≥ requested_resume then StartCause.ResumeTimeReached start requested_resume
      else StartCause.WaitCancelled start (some requested_resume)

/-- Method `ApplicationDelegate::wakeup` (lines 320-350). Arguments `panicking` and
`ready` are `panic_info.is_panicking()` and `event_handler.ready()`; `now` is the
clock at the `Instant::now()` call. `none` is the panic of `start_time.get().unwrap()`. -/
def wakeup (s : AppState) (panicking ready : Bool) (now : Nat) :
    Option (AppState × List Effect) :=
  if panicking || !ready || !s.is_running then some (s, [])
  else
    let stops := if s.stop_after_wait then [Effect.stopApp] else []
    match s.start_time with
    | none => none
    | some start =>
        some (s, stops ++ [Effect.newEvents (wakeupCause s.control_flow now start)])

/-- The `app_timeout` match inside `ApplicationDelegate::cleared` (lines 391-395). -/
def appTimeout (cf : ControlFlow) (now : Nat) : Option Nat :=
  match cf with
  | ControlFlow.Wait => none
  | ControlFlow.Poll => some now
  | ControlFlow.WaitUntil t => some t

/-- Method `ApplicationDelegate::cleared` (lines 353-397). Guard arguments as in
`wakeup`; `now` is the clock during the call (used both for `start_time` and for the
`Poll` deadline, which the Rust code reads from two adjacent `Instant::now()` calls). -/
def cleared (s : AppState) (panicking ready : Bool) (now : Nat) :
    AppState × List Effect :=
  if panicking || !ready || !s.is_running then (s, [])
  else
    let proxyEffects := if s.proxy_wake_up then [Effect.proxyWakeUp] else []
    let s1 : AppState := { s with proxy_wake_up := false }
    let redraw := s1.pending_redraw
    let s2 : AppState := { s1 with pending_redraw := [] }
    let redrawEffects := redraw.map Effect.windowEvent
    let exitStops := if s2.exit then [Effect.stopApp] else []
    let waitStops := if s2.stop_before_wait then [Effect.stopApp] else []
    let s3 : AppState := { s2 with start_time := some now }
    (s3, proxyEffects ++ redrawEffects ++ [Effect.aboutToWait] ++ exitStops ++ waitStops
        ++ [Effect.wakerStartAt (min_timeout s3.wait_timeout (appTimeout s3.control_flow now))])

/-- Method `ApplicationDelegate::queue_redraw` (lines 274-280): push the id if absent,
then nudge the run loop. -/
def queue_redraw (s : AppState) (window_id : Nat) : AppState × List Effect :=
  let pending :=
    if window_id ∈ s.pending_redraw then s.pending_redraw
    else s.pending_redraw ++ [window_id]
  ({ s with pending_redraw := pending }, [Effect.runLoopWakeup])

/-- Method `ApplicationDelegate::handle_redraw` (lines 255-272). `in_use` is
`event_handler.in_use()`. -/
def handle_redraw (s : AppState) (in_use : Bool) (window_id : Nat) :
    AppState × List Effect :=
  if !in_use then
    (s, [Effect.windowEvent window_id] ++ if s.stop_on_redraw then [Effect.stopApp] else [])
  else (s, [])

/-- Method `ApplicationDelegate::internal_exit` (lines 211-221): dispatch `exiting`,
then clear the running flag, the three `set_stop_*` flags it calls, and the wait
timeout. -/
def internal_exit (s : AppState) : AppState × List Effect :=
  ({ s with is_running := false, stop_on_redraw := false, stop_before_wait := false,
            stop_after_wait := false, wait_timeout := none },
   [Effect.exiting])

/-- Method `ApplicationDelegate::did_finish_launching` (lines 110-150), restricted to
its `AppState` reads and writes: set `is_launched`, start the waker, set `is_running`,
dispatch the init events, then stop the app if `stop_on_launch` is set. -/
def did_finish_launching (s : AppState) : AppState × List Effect :=
  let s1 : AppState := { s with is_launched := true }
  let s2 : AppState := { s1 with is_running := true }
  (s2, [Effect.wakerStart, Effect.newEvents StartCause.Init, Effect.canCreateSurfaces]
       ++ if s2.stop_on_launch then [Effect.stopApp] else [])

/-- Modelled from the spec: the native run loop work queue behind
`RunLoop::queue_closure` (observer.rs, not among the provided sources). The spec calls
it the run loop own work queue, FIFO, run on the affine thread at the next
opportunity: enqueueing appends at the back. -/
def runLoopEnqueue (q : List Nat) (cb : Nat) : List Nat := q ++ [cb]

/-- Modelled from the spec: draining the native run loop work queue after the outer
dispatch completes runs each queued closure exactly once, front to back, each through
`with_handler`. -/
def runLoopDrain (q : List Nat) : List Effect := q.map Effect.dispatchCb

/-- Method `ApplicationDelegate::maybe_queue_with_handler` (lines 282-302): dispatch
inline when no dispatch is in progress, otherwise enqueue the closure on the native
run loop work queue. Returns the successor queue and the effects performed now. -/
def maybe_queue_with_handler (in_use : Bool) (q : List Nat) (cb : Nat) :
    List Nat × List Effect :=
  if !in_use then (q, [Effect.dispatchCb cb])
  else (runLoopEnqueue q cb, [])

/-- A burst of `maybe_queue_with_handler` calls arriving in order while the
reentrancy flag has the given value, starting from queue `q`: final queue and the
effects performed during the burst. -/
def processCalls (q : List Nat) (calls : List Nat) (in_use : Bool) :
    List Nat × List Effect :=
  calls.foldl
    (fun acc cb =>
      let r := maybe_queue_with_handler in_use acc.1 cb
      (r.1, acc.2 ++ r.2))
    (q, [])

/-- Whole-scenario trace for deferred dispatch: an outer dispatch `outer` runs (so
`in_use` is true for its whole duration), the calls in `calls` arrive during it, and
after it completes the run loop drains its work queue (empty beforehand). -/
def dispatchWithReentrant (outer : Nat) (calls : List Nat) : List Effect :=
  let burst := processCalls [] calls true
  [Effect.dispatchCb outer] ++ burst.2 ++ runLoopDrain burst.1

/-- Applying a sequence of `queue_redraw` calls in order, discarding the run-loop
nudge effects. -/
def applyQueueRedraws (s : AppState) (ws : List Nat) : AppState :=
  ws.foldl (fun s w => (queue_redraw s w).1) s

/-- A convenient concrete coordinator state: freshly running, nothing pending. -/
def baseState : AppState :=
  { proxy_wake_up := false, stop_on_launch := false, stop_before_wait := false,
    stop_after_wait := false, stop_on_redraw := false, is_launched := true,
    is_running := true, exit := false, control_flow := ControlFlow.Wait,
    start_time := some 0, wait_timeout := none, pending_redraw := [] }

/-! ## Theorems -/

/-- C6: `min_timeout` treats `None` as an infinite bound: combining `None` with
`Some v` in either order gives `Some v`, `Some a` with `Some b` gives
`Some (min a b)`, and `None` with `None` gives `None` — an absent bound never
shortens the other side. -/
theorem min_timeout_combines_deadlines (v a b : Nat) :
    min_timeout none (some v) = some v ∧
    min_timeout (some v) none = some v ∧
    min_timeout (some a) (some b) = some (min a b) ∧
    min_timeout none none = (none : Option Nat) := by
  refine ⟨rfl, rfl, rfl, rfl⟩

/-- C9: when a dispatch is in progress (`in_use` true), `handle_redraw` is a total
no-op: no `RedrawRequested` is dispatched, nothing is queued or added to
`pending_redraw`, no stop is signalled even when `stop_on_redraw` is set, and the
state is unchanged. -/
theorem handle_redraw_in_use_noop (s : AppState) (window_id : Nat) :
    handle_redraw s true window_id = (s, []) := by
  simp [handle_redraw]

/-- C10: `wakeup` unwraps `start_time` after its guards pass: in any state that is
running, with a ready handler and no propagating panic, but with `start_time` still
`None`, `wakeup` panics (modelled as `none`). -/
theorem wakeup_panics_when_start_time_none (s : AppState) (now : Nat)
    (hrun : s.is_running = true) (hst : s.start_time = none) :
    wakeup s false true now = none := by
  simp [wakeup, hrun, hst]

/-- Witness for `wakeup_panics_when_start_time_none` at a concrete state. -/
theorem wakeup_panics_when_start_time_none_witness :
    wakeup { baseState with start_time := none } false true 7 = none :=
  wakeup_panics_when_start_time_none { baseState with start_time := none } 7 rfl rfl

/-- C7: both steady-state entry points, `wakeup` and `cleared`, are complete no-ops —
no effect is emitted and no state is mutated — whenever a panic is propagating, no
handler is installed (`ready` false), or the session is not running; the missing
handler case returns silently rather than signalling an error. -/
theorem wakeup_cleared_guard_noop (s : AppState) (panicking ready : Bool) (now : Nat)
    (h : panicking = true ∨ ready = false ∨ s.is_running = false) :
    wakeup s panicking ready now = some (s, []) ∧
    cleared s panicking ready now = (s, []) :=
  have hg : (panicking || !ready || !s.is_running) = true := by
    rcases h with h | h | h <;> simp [h]
  by constructor <;> simp [wakeup, cleared, hg]

/-- Witness for `wakeup_cleared_guard_noop`: the no-handler case at a concrete state. -/
theorem wakeup_cleared_guard_noop_witness :
    wakeup baseState false false 3 = some (baseState, []) ∧
    cleared baseState false false 3 = (baseState, []) :=
  wakeup_cleared_guard_noop baseState false false 3 (Or.inr (Or.inl rfl))

/-- C2: the `StartCause` computed by `wakeup` is the pure function `wakeupCause` of
`(control_flow, now, start)`, dispatched through `new_events`: `Poll` always yields
`StartCause.Poll`; `Wait` always yields `WaitCancelled` with no requested resume;
`WaitUntil t` yields `ResumeTimeReached start t` exactly when `now ≥ t`, and otherwise
`WaitCancelled start (some t)`. -/
theorem wakeup_start_cause_pure (s : AppState) (now start t : Nat)
    (hrun : s.is_running = true) (hst : s.start_time = some start) :
    wakeup s false true now =
      some (s, (if s.stop_after_wait then [Effect.stopApp] else [])
        ++ [Effect.newEvents (wakeupCause s.control_flow now start)]) ∧
    wakeupCause ControlFlow.Poll now start = StartCause.Poll ∧
    wakeupCause ControlFlow.Wait now start = StartCause.WaitCancelled start none ∧
    (now ≥ t →
      wakeupCause (ControlFlow.WaitUntil t) now start = StartCause.ResumeTimeReached start t) ∧
    (now < t →
      wakeupCause (ControlFlow.WaitUntil t) now start =
        StartCause.WaitCancelled start (some t)) := by
  refine ⟨by simp [wakeup, hrun, hst], rfl, rfl, ?_, ?_⟩
  · intro h
    simp [wakeupCause, h]
  · intro h
    simp [wakeupCause, Nat.not_le.mpr h]

/-- Witness for `wakeup_start_cause_pure` at a concrete state with
`control_flow = WaitUntil 10` woken at `now = 4`. -/
theorem wakeup_start_cause_pure_witness :
    wakeup { baseState with control_flow := ControlFlow.WaitUntil 10 } false true 4 =
      some ({ baseState with control_flow := ControlFlow.WaitUntil 10 },
        [Effect.newEvents (StartCause.WaitCancelled 0 (some 10))]) := by
  have h := wakeup_start_cause_pure
    { baseState with control_flow := ControlFlow.WaitUntil 10 } 4 0 10 rfl rfl
  simpa [baseState, wakeupCause] using h.1

/-- C4 counterexample: `internal_exit` does not reset `stop_on_launch` — starting
from a state with `stop_on_launch` set, it is still set afterwards, refuting the
claim that all four checkpoint flags are reset to false. -/
theorem internal_exit_keeps_stop_on_launch :
    (internal_exit { baseState with stop_on_launch := true }).1.stop_on_launch = true := by
  decide

/-- C4 (amended): `internal_exit` dispatches the `exiting` callback and resets
`is_running` and the three checkpoint flags `stop_before_wait`, `stop_after_wait`,
`stop_on_redraw` to false and `wait_timeout` to `None`, while leaving
`stop_on_launch`, `is_launched` and every other field unchanged. -/
theorem internal_exit_resets_session_state (s : AppState) :
    (internal_exit s).2 = [Effect.exiting] ∧
    (internal_exit s).1.is_running = false ∧
    (internal_exit s).1.stop_before_wait = false ∧
    (internal_exit s).1.stop_after_wait = false ∧
    (internal_exit s).1.stop_on_redraw = false ∧
    (internal_exit s).1.wait_timeout = none ∧
    (internal_exit s).1.stop_on_launch = s.stop_on_launch ∧
    (internal_exit s).1.is_launched = s.is_launched ∧
    (internal_exit s).1.exit = s.exit ∧
    (internal_exit s).1.control_flow = s.control_flow ∧
    (internal_exit s).1.start_time = s.start_time ∧
    (internal_exit s).1.pending_redraw = s.pending_redraw ∧
    (internal_exit s).1.proxy_wake_up = s.proxy_wake_up := by
  simp [internal_exit]

/-- C5 counterexample: with the exit flag set (guards passing), `cleared` still
records `start_time = now` and still re-arms the waker, refuting the claim that it
does so only when neither `exit_requested` nor `stop_before_wait` is set. -/
theorem cleared_rearms_despite_exit :
    ({ baseState with exit := true, start_time := none } : AppState).exit = true ∧
    (cleared { baseState with exit := true, start_time := none } false true 5).1.start_time
      = some 5 ∧
    Effect.wakerStartAt none
      ∈ (cleared { baseState with exit := true, start_time := none } false true 5).2 ∧
    Effect.stopApp
      ∈ (cleared { baseState with exit := true, start_time := none } false true 5).2 := by
  decide

/-- C5 (amended): at the end of a guards-passing `cleared` cycle, a stop is signalled
exactly when `exit` or `stop_before_wait` is set; and in every such cycle — whether
or not a stop was signalled — `start_time` is set to `now` and the waker is re-armed,
as the final effect, with `min_timeout wait_timeout app_timeout`, where `app_timeout`
is `None` for `Wait`, `Some now` for `Poll` and `Some t` for `WaitUntil t`. -/
theorem cleared_stop_and_rearm (s : AppState) (now : Nat)
    (hrun : s.is_running = true) :
    (Effect.stopApp ∈ (cleared s false true now).2 ↔
      (s.exit = true ∨ s.stop_before_wait = true)) ∧
    (cleared s false true now).1.start_time = some now ∧
    (cleared s false true now).2.getLast? =
      some (Effect.wakerStartAt (min_timeout s.wait_timeout (appTimeout s.control_flow now))) ∧
    appTimeout ControlFlow.Wait now = none ∧
    appTimeout ControlFlow.Poll now = some now ∧
    (∀ t, appTimeout (ControlFlow.WaitUntil t) now = some t) := by
  refine ⟨?_, ?_, ?_, rfl, rfl, fun t => rfl⟩
  · cases hexit : s.exit <;> cases hsbw : s.stop_before_wait <;>
      simp [cleared, hrun, hexit, hsbw, List.mem_map]
  · simp [cleared, hrun]
  · simp only [cleared, hrun]
    simp [List.getLast?_concat, ← List.append_assoc]
  
/-- Witness for `cleared_stop_and_rearm` at `baseState` with `now = 5`: no stop is
signalled and `start_time` becomes `some 5`. -/
theorem cleared_stop_and_rearm_witness :
    Effect.stopApp ∉ (cleared baseState false true 5).2 ∧
    (cleared baseState false true 5).1.start_time = some 5 := by
  have h := cleared_stop_and_rearm baseState 5 rfl
  refine ⟨fun hm => ?_, h.2.1⟩
  rcases h.1.mp hm with hc | hc <;> simp [baseState] at hc

/-- The coordinator operations of app_state.rs that read or write `AppState`:
the two native lifecycle notifications, the public setters, exit handling, the
redraw paths, the cross-thread proxy-wake store, and the two run-loop observer
entry points. -/
inductive Op where
  | didFinishLaunching : Op
  | internalExit : Op
  | setStopOnLaunch : Op
  | setStopBeforeWait (b : Bool) : Op
  | setStopAfterWait (b : Bool) : Op
  | setStopOnRedraw (b : Bool) : Op
  | setWaitTimeout (v : Option Nat) : Op
  | setIsRunning (b : Bool) : Op
  | requestExit : Op
  | clearExit : Op
  | setControlFlow (cf : ControlFlow) : Op
  | queueRedraw (w : Nat) : Op
  | handleRedraw (in_use : Bool) (w : Nat) : Op
  | proxyWake : Op
  | wakeupOp (panicking ready : Bool) (now : Nat) : Op
  | clearedOp (panicking ready : Bool) (now : Nat) : Op
  deriving Repr, DecidableEq

/-- State transition of each coordinator operation (effects dropped); a panicking
`wakeup` leaves the state as it was at the panic. -/
def stepOp (op : Op) (s : AppState) : AppState :=
  match op with
  | Op.didFinishLaunching => (did_finish_launching s).1
  | Op.internalExit => (internal_exit s).1
  | Op.setStopOnLaunch => { s with stop_on_launch := true }
  | Op.setStopBeforeWait b => { s with stop_before_wait := b }
  | Op.setStopAfterWait b => { s with stop_after_wait := b }
  | Op.setStopOnRedraw b => { s with stop_on_redraw := b }
  | Op.setWaitTimeout v => { s with wait_timeout := v }
  | Op.setIsRunning b => { s with is_running := b }
  | Op.requestExit => { s with exit := true }
  | Op.clearExit => { s with exit := false }
  | Op.setControlFlow cf => { s with control_flow := cf }
  | Op.queueRedraw w => (queue_redraw s w).1
  | Op.handleRedraw u w => (handle_redraw s u w).1
  | Op.proxyWake => { s with proxy_wake_up := true }
  | Op.wakeupOp p r now => ((wakeup s p r now).getD (s, [])).1
  | Op.clearedOp p r now => (cleared s p r now).1

/-- Helper: `wakeup` never mutates the coordinator state. -/
theorem wakeup_fst (s : AppState) (p r : Bool) (now : Nat) :
    ((wakeup s p r now).getD (s, [])).1 = s := by
  unfold wakeup
  split
  · rfl
  · cases hst : s.start_time <;> simp [hst]

/-- Helper: `handle_redraw` never mutates the coordinator state. -/
theorem handle_redraw_fst (s : AppState) (u : Bool) (w : Nat) :
    (handle_redraw s u w).1 = s := by
  unfold handle_redraw
  split <;> rfl

/-- Helper: `cleared` leaves `is_launched` unchanged. -/
theorem cleared_fst_is_launched (s : AppState) (p r : Bool) (now : Nat) :
    (cleared s p r now).1.is_launched = s.is_launched := by
  unfold cleared
  split <;> rfl

/-- C8: `is_launched` is set (to true) by `did_finish_launching` and by no other
coordinator operation, and it is monotone: once true, it stays true across every
operation, including `internal_exit` and the setters that start a new session. -/
theorem is_launched_never_reset (op : Op) (s : AppState) :
    ((stepOp op s).is_launched = s.is_launched ∨ op = Op.didFinishLaunching) ∧
    (stepOp Op.didFinishLaunching s).is_launched = true ∧
    (s.is_launched = true → (stepOp op s).is_launched = true) := by
  have hd : (stepOp Op.didFinishLaunching s).is_launched = true := rfl
  have hmain : (stepOp op s).is_launched = s.is_launched ∨ op = Op.didFinishLaunching := by
    cases op with
    | didFinishLaunching => exact Or.inr rfl
    | handleRedraw u w => exact Or.inl (by rw [show stepOp (Op.handleRedraw u w) s
        = (handle_redraw s u w).1 from rfl, handle_redraw_fst])
    | wakeupOp p r now => exact Or.inl (by rw [show stepOp (Op.wakeupOp p r now) s
        = ((wakeup s p r now).getD (s, [])).1 from rfl, wakeup_fst])
    | clearedOp p r now => exact Or.inl (cleared_fst_is_launched s p r now)
    | _ => exact Or.inl rfl
  refine ⟨hmain, hd, fun h => ?_⟩
  rcases hmain with he | he
  · rw [he, h]
  · rw [he]
    exact hd

/-- Witness for `is_launched_never_reset`: `internal_exit` from a launched state
keeps `is_launched` true. -/
theorem is_launched_never_reset_witness :
    (stepOp Op.internalExit baseState).is_launched = true :=
  (is_launched_never_reset Op.internalExit baseState).2.2 rfl

/-- Helper: while a dispatch is in progress, a burst of `maybe_queue_with_handler`
calls only appends to the work queue, in arrival order, and performs no dispatch. -/
theorem processCalls_in_use (calls q : List Nat) (es : List Effect) :
    calls.foldl
      (fun acc cb =>
        let r := maybe_queue_with_handler true acc.1 cb
        (r.1, acc.2 ++ r.2))
      (q, es) = (q ++ calls, es) := by
  induction calls generalizing q es with
  | nil => simp
  | cons c cs ih =>
      rw [List.foldl_cons]
      show List.foldl _ (q ++ [c], es ++ []) cs = (q ++ c :: cs, es)
      rw [List.append_nil, ih]
      simp

/-- Helper: `Effect.dispatchCb` is injective. -/
theorem dispatchCb_injective : Function.Injective Effect.dispatchCb := by
  intro a b h
  simpa using h

/-- C1: a user-callback invocation attempted while a dispatch is in progress is
enqueued on the run loop work queue, never executed inline (`maybe_queue_with_handler`
with `in_use` true emits no dispatch); when not in use it dispatches inline; and in
the whole-scenario trace every deferred invocation runs exactly once, strictly after
the outer dispatch, in enqueue order — so the trace is a sequence of non-overlapping
dispatches, at most one active at any instant. -/
theorem deferred_dispatch_exactly_once (outer cb c : Nat) (q calls : List Nat) :
    maybe_queue_with_handler true q cb = (runLoopEnqueue q cb, []) ∧
    maybe_queue_with_handler false q cb = (q, [Effect.dispatchCb cb]) ∧
    processCalls [] calls true = (calls, []) ∧
    dispatchWithReentrant outer calls =
      Effect.dispatchCb outer :: calls.map Effect.dispatchCb ∧
    (dispatchWithReentrant outer calls).count (Effect.dispatchCb c) =
      (outer :: calls).count c := by
  have hp : processCalls [] calls true = (calls, []) := by
    simpa using processCalls_in_use calls [] []
  have ht : dispatchWithReentrant outer calls =
      Effect.dispatchCb outer :: calls.map Effect.dispatchCb := by
    simp [dispatchWithReentrant, hp, runLoopDrain]
  refine ⟨rfl, rfl, hp, ht, ?_⟩
  rw [ht]
  rcases eq_or_ne c outer with rfl | hco
  · simp [List.count_cons,
      List.count_map_of_injective calls Effect.dispatchCb dispatchCb_injective c]
  · simp [List.count_cons, hco, Ne.symm hco,
      List.count_map_of_injective calls Effect.dispatchCb dispatchCb_injective c]

/-- Helper: unfolding one `queue_redraw` step of `applyQueueRedraws`. -/
theorem applyQueueRedraws_cons (s : AppState) (w : Nat) (ws : List Nat) :
    applyQueueRedraws s (w :: ws) = applyQueueRedraws (queue_redraw s w).1 ws := rfl

/-- Helper: the pending list after one `queue_redraw`. -/
theorem queue_redraw_pending (s : AppState) (w : Nat) :
    (queue_redraw s w).1.pending_redraw =
      if w ∈ s.pending_redraw then s.pending_redraw else s.pending_redraw ++ [w] := rfl

/-- Helper: `queue_redraw` preserves every field except `pending_redraw`; in
particular `is_running`. -/
theorem applyQueueRedraws_is_running (ws : List Nat) (s : AppState) :
    (applyQueueRedraws s ws).is_running = s.is_running := by
  induction ws generalizing s with
  | nil => rfl
  | cons c cs ih =>
      rw [applyQueueRedraws_cons, ih]
      rfl

/-- Helper: membership in the pending list after a sequence of `queue_redraw` calls
is membership in the initial pending list or in the sequence. -/
theorem applyQueueRedraws_mem (ws : List Nat) (s : AppState) (w : Nat) :
    w ∈ (applyQueueRedraws s ws).pending_redraw ↔
      w ∈ s.pending_redraw ∨ w ∈ ws := by
  induction ws generalizing s with
  | nil => simp [applyQueueRedraws]
  | cons c cs ih =>
      rw [applyQueueRedraws_cons, ih, queue_redraw_pending]
      by_cases hc : c ∈ s.pending_redraw
      · rw [if_pos hc]
        constructor
        · intro h
          tauto
        · rintro (h | h)
          · exact Or.inl h
          · rcases List.mem_cons.mp h with rfl | h
            · exact Or.inl hc
            · exact Or.inr h
      · rw [if_neg hc]
        simp only [List.mem_append, List.mem_singleton, List.mem_cons]
        tauto

/-- Helper: `queue_redraw` sequences preserve `Nodup` of the pending list. -/
theorem applyQueueRedraws_nodup (ws : List Nat) (s : AppState)
    (h : s.pending_redraw.Nodup) :
    (applyQueueRedraws s ws).pending_redraw.Nodup := by
  induction ws generalizing s with
  | nil => exact h
  | cons c cs ih =>
      rw [applyQueueRedraws_cons]
      apply ih
      rw [queue_redraw_pending]
      by_cases hc : c ∈ s.pending_redraw
      · rwa [if_pos hc]
      · rw [if_neg hc]
        exact List.Nodup.append h (List.nodup_singleton c)
          (List.disjoint_singleton.mpr hc)

/-- Helper: a guards-passing `cleared` dispatches `RedrawRequested` for `w` exactly
as many times as `w` occurs in the pending list. -/
theorem cleared_windowEvent_count (s : AppState) (now w : Nat)
    (hrun : s.is_running = true) :
    (cleared s false true now).2.count (Effect.windowEvent w) =
      s.pending_redraw.count w := by
  cases hpx : s.proxy_wake_up <;> cases hex : s.exit <;>
    cases hsbw : s.stop_before_wait <;>
      simp [cleared, hrun, hpx, hex, hsbw, List.count_append, List.count_cons,
        List.count_map_of_injective s.pending_redraw Effect.windowEvent
          (fun a b hab => by simpa using hab) w]

/-- Helper: a guards-passing `cleared` empties the pending list. -/
theorem cleared_pending_empty (s : AppState) (now : Nat)
    (hrun : s.is_running = true) :
    (cleared s false true now).1.pending_redraw = [] := by
  simp [cleared, hrun]

/-- C3: starting from an empty pending set, any sequence of `queue_redraw` calls
(repetitions included) leaves a duplicate-free pending list; the next guards-passing
`cleared` cycle dispatches exactly one `RedrawRequested` per distinct queued id and
leaves the pending list empty; and since the list is cleared before dispatching,
redraws requested afterwards (during the drain) are pending for the next cycle, not
dispatched in this one and not lost. -/
theorem queue_redraw_drain_exactly_once (s0 : AppState) (ws rs : List Nat) (now w : Nat)
    (hrun : s0.is_running = true) (hp : s0.pending_redraw = []) :
    (applyQueueRedraws s0 ws).pending_redraw.Nodup ∧
    (cleared (applyQueueRedraws s0 ws) false true now).2.count (Effect.windowEvent w)
      = (if w ∈ ws then 1 else 0) ∧
    (cleared (applyQueueRedraws s0 ws) false true now).1.pending_redraw = [] ∧
    (w ∈ (applyQueueRedraws
        (cleared (applyQueueRedraws s0 ws) false true now).1 rs).pending_redraw
      ↔ w ∈ rs) := by
  have hrun2 : (applyQueueRedraws s0 ws).is_running = true := by
    rw [applyQueueRedraws_is_running]
    exact hrun
  have hnd : (applyQueueRedraws s0 ws).pending_redraw.Nodup := by
    apply applyQueueRedraws_nodup
    rw [hp]
    exact List.nodup_nil
  have hmem : ∀ x, x ∈ (applyQueueRedraws s0 ws).pending_redraw ↔ x ∈ ws := by
    intro x
    rw [applyQueueRedraws_mem, hp]
    simp
  have hempty := cleared_pending_empty (applyQueueRedraws s0 ws) now hrun2
  refine ⟨hnd, ?_, hempty, ?_⟩
  · rw [cleared_windowEvent_count (applyQueueRedraws s0 ws) now w hrun2]
    by_cases hw : w ∈ ws
    · rw [if_pos hw]
      exact List.count_eq_one_of_mem hnd ((hmem w).mpr hw)
    · rw [if_neg hw]
      exact List.count_eq_zero_of_not_mem (fun hc => hw ((hmem w).mp hc))
  · rw [applyQueueRedraws_mem, hempty]
    simp

/-- Witness for `queue_redraw_drain_exactly_once`: queueing window 1 twice yields
exactly one `RedrawRequested` for it in the next cleared cycle. -/
theorem queue_redraw_drain_exactly_once_witness :
    (cleared (applyQueueRedraws baseState [1, 1]) false true 5).2.count
      (Effect.windowEvent 1) = 1 := by
  have h := queue_redraw_drain_exactly_once baseState [1, 1] [] 5 1 rfl rfl
  simpa using h.2.1
